import Mathlib

/-!
Verification development for the npg-irods-python core: the Illumina
component identity model, the ML-warehouse flowcell resolver, the
reconciliation engine, the change scanner and the product extractor.

The definitions below are a shallow embedding of
`src/npg_irods/illumina.py` and `src/npg_irods/mlwh_locations/illumina.py`.
Warehouse sessions are modelled as lists of joined rows, iRODS items as
records of their observable metadata, and Python exceptions as `Except`
error values.  Collaborators that live outside these two files
(`npg_irods.metadata.*`, `npg_irods.common`, `partisan`) are modelled from
the specification at their interface boundary and are marked as such.
-/

/- ===================== JSON descriptor sublanguage ===================== -/

/-- A scalar JSON value: the canonical component descriptor language uses
only integers and strings.  `json.loads` accepts more (floats, booleans,
nested containers); descriptors using those denote no well-typed
`Component` and are outside this embedding. -/
inductive JScalar
  | num (n : Int)
  | str (s : String)
deriving DecidableEq

/-- A flat JSON object, in source order; duplicate keys are allowed and the
last occurrence wins, as in Python dict construction. -/
abbrev JObj : Type := List (String × JScalar)

/-- Last-wins key lookup, matching how `json.loads` builds a Python dict. -/
def jGet (o : JObj) (k : String) : Option JScalar :=
  ((o.filter (fun kv => kv.1 == k)).getLast?).map (fun kv => kv.2)

def isWs (c : Char) : Bool :=
  c == ' ' || c == '\t' || c == '\n' || c == '\r'

/-- The double-quote character. -/
def quoteCh : Char := Char.ofNat 34

/-- The backslash character. -/
def backslashCh : Char := Char.ofNat 92

/-- The opening-brace character. -/
def openBraceCh : Char := Char.ofNat 123

/-- The closing-brace character. -/
def closeBraceCh : Char := Char.ofNat 125

/-- Numeric value committed at the end of a JSON number. -/
def commitNum (neg : Bool) (a : Nat) : Int :=
  if neg then -(a : Int) else (a : Int)

/-- Parser state for the character-at-a-time JSON object reader. -/
inductive PSt
  | start
  | afterOpen (o : JObj)
  | key (acc : List Char) (o : JObj)
  | afterKey (k : String) (o : JObj)
  | beforeVal (k : String) (o : JObj)
  | strVal (k : String) (acc : List Char) (o : JObj)
  | numVal (k : String) (neg : Bool) (acc : Option Nat) (o : JObj)
  | afterVal (o : JObj)
  | afterComma (o : JObj)
  | done (o : JObj)

/-- One transition of the JSON object reader.  Mirrors the grammar accepted
by `json.loads` restricted to flat objects of integer and string values:
no escapes in strings, no floats, no trailing commas, optional whitespace
between tokens. -/
def stepP : PSt → Char → Option PSt
  | .start, c =>
    if c == openBraceCh then some (.afterOpen [])
    else if isWs c then some .start
    else none
  | .afterOpen o, c =>
    if c == quoteCh then some (.key [] o)
    else if c == closeBraceCh then some (.done o)
    else if isWs c then some (.afterOpen o)
    else none
  | .key acc o, c =>
    if c == quoteCh then some (.afterKey (String.mk acc) o)
    else if c == backslashCh then none
    else some (.key (acc ++ [c]) o)
  | .afterKey k o, c =>
    if c == ':' then some (.beforeVal k o)
    else if isWs c then some (.afterKey k o)
    else none
  | .beforeVal k o, c =>
    if c == quoteCh then some (.strVal k [] o)
    else if c == '-' then some (.numVal k true none o)
    else if c.isDigit then some (.numVal k false (some (c.toNat - 48)) o)
    else if isWs c then some (.beforeVal k o)
    else none
  | .strVal k acc o, c =>
    if c == quoteCh then some (.afterVal (o ++ [(k, JScalar.str (String.mk acc))]))
    else if c == backslashCh then none
    else some (.strVal k (acc ++ [c]) o)
  | .numVal k neg acc o, c =>
    if c.isDigit then
      some (.numVal k neg (some (10 * acc.getD 0 + (c.toNat - 48))) o)
    else
      match acc with
      | none => none
      | some a =>
        if c == ',' then some (.afterComma (o ++ [(k, JScalar.num (commitNum neg a))]))
        else if c == closeBraceCh then some (.done (o ++ [(k, JScalar.num (commitNum neg a))]))
        else if isWs c then some (.afterVal (o ++ [(k, JScalar.num (commitNum neg a))]))
        else none
  | .afterVal o, c =>
    if c == ',' then some (.afterComma o)
    else if c == closeBraceCh then some (.done o)
    else if isWs c then some (.afterVal o)
    else none
  | .afterComma o, c =>
    if c == quoteCh then some (.key [] o)
    else if isWs c then some (.afterComma o)
    else none
  | .done o, c =>
    if isWs c then some (.done o)
    else none

/-- Run the reader to end of input; accept only in the `done` state. -/
def runP : PSt → List Char → Option JObj
  | st, [] =>
    match st with
    | .done o => some o
    | _ => none
  | st, c :: cs =>
    match stepP st c with
    | some st2 => runP st2 cs
    | none => none

/-- Parse a whole string as a flat JSON object (`json.loads` on the
canonical descriptor sublanguage). -/
def jsonParse (s : String) : Option JObj :=
  runP PSt.start s.data

/- ===================== JSON printing (json.dumps) ===================== -/

/-- Decimal digit character. -/
def digitChar (d : Nat) : Char := Char.ofNat (48 + d)

/-- Decimal digits of a natural number, most significant first. -/
def natChars (n : Nat) : List Char :=
  if _h : n < 10 then [digitChar n]
  else natChars (n / 10) ++ [digitChar (n % 10)]
termination_by n
decreasing_by
  exact Nat.div_lt_self (by omega) (by omega)

/-- Decimal rendering of an integer, as `json.dumps` prints it. -/
def intChars (n : Int) : List Char :=
  if n < 0 then '-' :: natChars n.natAbs else natChars n.natAbs

/-- Characters of one serialized scalar.  String values are emitted between
double quotes without escaping: every string the component serializer emits
(field keys and subset names) needs no escapes. -/
def scalarChars : JScalar → List Char
  | .num n => intChars n
  | .str s => quoteCh :: s.data ++ [quoteCh]

/-- Characters of one serialized `"key":value` field (compact separators,
as `json.dumps(..., separators=(",", ":"))` emits). -/
def fieldChars (kv : String × JScalar) : List Char :=
  quoteCh :: kv.1.data ++ quoteCh :: ':' :: scalarChars kv.2

/-- Comma-joined serialized fields. -/
def fieldsChars : JObj → List Char
  | [] => []
  | [kv] => fieldChars kv
  | kv :: rest => fieldChars kv ++ ',' :: fieldsChars rest

/-- Lexicographic (code-point) order on strings, as Python compares them
for `sort_keys=True`. -/
def charsLe : List Char → List Char → Bool
  | [], _ => true
  | _ :: _, [] => false
  | c :: cs, d :: ds => if c = d then charsLe cs ds else decide (c < d)

def strLe (a b : String) : Bool := charsLe a.data b.data

/-- Sort object fields by key (the `sort_keys=True` of `json.dumps`). -/
def sortFields (o : JObj) : JObj :=
  List.insertionSort (fun a b => strLe a.1 b.1 = true) o

/-- Serialize a flat object the way
`json.dumps(rep, sort_keys=True, separators=(",", ":"))` does: single line,
keys sorted lexicographically, no extraneous whitespace. -/
def dumpObjChars (o : JObj) : List Char :=
  openBraceCh :: fieldsChars (sortFields o) ++ [closeBraceCh]

/- ===================== Component identity model ===================== -/

/-- Error taxonomy of the embedded core, naming the spec's classes.  In the
source all of these are `ValueError`s distinguished by raise site and
message. -/
inductive Err
  | parseError (msg : String)
  | invalidQuery (msg : String)
deriving DecidableEq

/-- Modelled from the spec: `SeqSubset` from `npg_irods.metadata.common` is
not under `src/`.  The spec gives a closed enumerated subset set
\x7bhuman, x/y-chromosome-human, phix\x7d; the source of `illumina.py`
distinguishes the two x/y-variant members `XAHUMAN` and `YHUMAN`, so the
model carries both, with the conventional value strings. -/
inductive SeqSubset
  | human
  | xahuman
  | yhuman
  | phix
deriving DecidableEq

/-- Modelled from the spec: the string value of each `SeqSubset` member. -/
def SeqSubset.value : SeqSubset → String
  | .human => "human"
  | .xahuman => "xahuman"
  | .yhuman => "yhuman"
  | .phix => "phix"

/-- A set of reads from an Illumina sequencing run
(`npg_irods.illumina.Component`). -/
structure Component where
  id_run : Int
  position : Int
  tag_index : Option Int
  subset : Option SeqSubset
deriving DecidableEq

/-- `Component.__init__`: validates the `subset` argument against the
closed enumerated set, in the source's match order, raising `ValueError`
(the spec's `ParseError`) on anything else. -/
def Component.init (id_run position : Int) (tag_index : Option Int)
    (subset : Option String) : Except Err Component :=
  match subset with
  | none => .ok ⟨id_run, position, tag_index, none⟩
  | some s =>
    if s = SeqSubset.human.value then .ok ⟨id_run, position, tag_index, some .human⟩
    else if s = SeqSubset.xahuman.value then .ok ⟨id_run, position, tag_index, some .xahuman⟩
    else if s = SeqSubset.yhuman.value then .ok ⟨id_run, position, tag_index, some .yhuman⟩
    else if s = SeqSubset.phix.value then .ok ⟨id_run, position, tag_index, some .phix⟩
    else .error (.parseError "Invalid subset")

/-- Modelled from the spec: metadata attribute names.  `SeqConcept` and
`Instrument` from `npg_irods.metadata` are not under `src/`; the spec names
the descriptor fields `run_id`, `position`, `tag_index`, `subset` and the
descriptor attribute `component`. -/
def componentAttr : String := "component"

def runKey : String := "run_id"

def positionKey : String := "position"

def tagIndexKey : String := "tag_index"

def subsetKey : String := "subset"

/-- Second half of descriptor interpretation: the optional `subset` field.
A non-string subset value falls to the catch-all arm of `__init__` and is a
parse error. -/
def componentWithSubset (o : JObj) (r p : Int) (tag : Option Int) :
    Except Err Component :=
  match jGet o subsetKey with
  | none => Component.init r p tag none
  | some (JScalar.str s) => Component.init r p tag (some s)
  | some (JScalar.num _) => .error (.parseError "Invalid subset")

/-- Interpret a parsed descriptor object as a Component, as the body of
`Component.from_avu` does: `run_id` and `position` are required integers,
`tag_index` an optional integer, `subset` an optional enumerated string. -/
def componentFromJObj (o : JObj) : Except Err Component :=
  match jGet o runKey with
  | some (JScalar.num r) =>
    match jGet o positionKey with
    | some (JScalar.num p) =>
      match jGet o tagIndexKey with
      | none => componentWithSubset o r p none
      | some (JScalar.num t) => componentWithSubset o r p (some t)
      | some (JScalar.str _) => .error (.parseError "invalid tag_index")
    | _ => .error (.parseError "missing or invalid position")
  | _ => .error (.parseError "missing or invalid run_id")

/-- An attribute/value metadata pair (partisan `AVU`, value as text).
`attr` stands for the source's `attribute` field, which is a reserved word
here. -/
structure AVU where
  attr : String
  value : String
deriving DecidableEq

/-- `Component.from_avu`: reject a wrong attribute name, then parse the
AVU value as a JSON descriptor.  Any failure is a `ValueError`
(`ParseError`). -/
def Component.from_avu (avu : AVU) : Except Err Component :=
  if avu.attr = componentAttr then
    match jsonParse avu.value with
    | some o => componentFromJObj o
    | none => .error (.parseError "Failed to create a Component from metadata")
  else .error (.parseError "invalid attribute")

/-- `Component.contains_nonconsented_human`: the source tests
`self.subset is not None and self.subset in [HUMAN, XAHUMAN]`. -/
def Component.contains_nonconsented_human (c : Component) : Bool :=
  c.subset.isSome &&
    (c.subset == some SeqSubset.human || c.subset == some SeqSubset.xahuman)

/-- The `rep` dict built by `Component.__repr__`, in source insertion
order; `tag_index` and `subset` appear only when present.  The subset enum
member is emitted through its value string (modelled from the spec's
canonical encoding; the enum-to-JSON step happens outside `src/`). -/
def Component.rep (c : Component) : JObj :=
  [(runKey, JScalar.num c.id_run), (positionKey, JScalar.num c.position)]
    ++ (match c.tag_index with
        | some t => [(tagIndexKey, JScalar.num t)]
        | none => [])
    ++ (match c.subset with
        | some s => [(subsetKey, JScalar.str s.value)]
        | none => [])

/-- Characters of the canonical serialized descriptor. -/
def Component.reprChars (c : Component) : List Char :=
  dumpObjChars c.rep

/-- `Component.__repr__`: the canonical single-line JSON descriptor with
keys sorted lexicographically and compact separators. -/
def Component.repr (c : Component) : String :=
  String.mk c.reprChars

deriving instance DecidableEq for Except

/- ===================== Flowcell resolver ===================== -/

/-- A warehouse `Sample` row, reduced to its identity (its other columns
are opaque to the resolver). -/
structure Sample where
  id_sample : Int
deriving DecidableEq

/-- A warehouse `Study` row, reduced to its identity. -/
structure Study where
  id_study : Int
deriving DecidableEq

/-- One row of the join `IseqFlowcell ⋈ IseqProductMetrics` as
`find_flowcells_by_component` queries it: the filter columns come from
`IseqProductMetrics`, the returned entity is the `IseqFlowcell` with its
sample, study and stable row sequence `id_iseq_flowcell_tmp`. -/
structure FlowcellRow where
  id_iseq_flowcell_tmp : Int
  id_run : Int
  position : Int
  tag_index : Option Int
  sample : Sample
  study : Study
deriving DecidableEq

/-- `ORDER BY id_iseq_flowcell_tmp ASC`. -/
def orderById (l : List FlowcellRow) : List FlowcellRow :=
  List.insertionSort
    (fun a b => a.id_iseq_flowcell_tmp ≤ b.id_iseq_flowcell_tmp) l

/-- The special tag indexes of the `TagIndex` enum. -/
def tagBin : Int := 0

def tagControl198 : Int := 198

def tagControl888 : Int := 888

/-- `find_flowcells_by_component`: the warehouse session is modelled as the
list of joined rows; `distinct` is row dedup and the result is ordered by
the stable row sequence.  The tag-index decision table follows the source's
match statement: a control tag with `include_controls=False` raises
`ValueError` (the spec's `InvalidQueryError`); the bin tag 0 filters for
any non-null tag index; any other integer is an exact match; an absent tag
index filters for a null tag index. -/
def find_flowcells_by_component (rows : List FlowcellRow) (c : Component)
    (include_controls : Bool := false) : Except Err (List FlowcellRow) :=
  let base := rows.filter (fun r =>
    decide (r.id_run = c.id_run) && decide (r.position = c.position))
  match c.tag_index with
  | some t =>
    if (t = tagControl198 || t = tagControl888) && include_controls then
      .ok (orderById ((base.filter (fun r => r.tag_index == some t)).dedup))
    else if t = tagControl198 || t = tagControl888 then
      .error (.invalidQuery
        "Attempted to exclude controls for a query specifically requesting a control tag index")
    else if t = tagBin then
      .ok (orderById ((base.filter (fun r => r.tag_index.isSome)).dedup))
    else
      .ok (orderById ((base.filter (fun r => r.tag_index == some t)).dedup))
  | none =>
    .ok (orderById ((base.filter (fun r => r.tag_index == none)).dedup))

/- ===================== Change scanner ===================== -/

/-- One row of the four-way join behind `find_components_changed`:
`IseqFlowcell` joined to its `Sample`, `Study` and `IseqProductMetrics`,
carrying the projected `(id_run, position, tag_index)` triple, the four
last-modified timestamps and the stable row sequence.  Timestamps are
modelled as integers. -/
structure ChangedRow where
  id_run : Int
  position : Int
  tag_index : Option Int
  sample_recorded_at : Int
  study_recorded_at : Int
  flowcell_recorded_at : Int
  pm_last_changed : Int
  id_iseq_flowcell_tmp : Int
deriving DecidableEq

/-- The OR-of-four timestamp filter of `find_components_changed`, with the
source's inclusive `>=` comparisons. -/
def changedSince (since : Int) (r : ChangedRow) : Bool :=
  decide (since ≤ r.sample_recorded_at)
    || decide (since ≤ r.study_recorded_at)
    || decide (since ≤ r.flowcell_recorded_at)
    || decide (since ≤ r.pm_last_changed)

/-- `ORDER BY id_iseq_flowcell_tmp ASC` for the change scan. -/
def orderChangedById (l : List ChangedRow) : List ChangedRow :=
  List.insertionSort
    (fun a b => a.id_iseq_flowcell_tmp ≤ b.id_iseq_flowcell_tmp) l

/-- `find_components_changed`: distinct `(run, position, tag_index)`
triples whose row passes the timestamp filter, each wrapped as a Component
with no subset.  `SELECT DISTINCT` is dedup of the projected triples. -/
def find_components_changed (rows : List ChangedRow) (since : Int) :
    List Component :=
  (((orderChangedById rows).filter (changedSince since)).map
    (fun r => Component.mk r.id_run r.position r.tag_index none)).dedup

/- ===================== Reconciliation engine ===================== -/

/-- An access-control entry (the object store's ACL element), opaque to the
engine. -/
structure AC where
  user : String
  level : String
  zone : String
deriving DecidableEq

/-- Modelled from the spec: the derived-metadata and ACL constructors of
`npg_irods.metadata.lims` (`make_sample_metadata`, `make_study_metadata`,
`make_sample_acl`) are not under `src/`; the engine only accumulates their
results, so they are modelled as abstract functions of the resolved sample
and study. -/
structure LimsEnv where
  make_sample_metadata : Sample → List AVU
  make_study_metadata : Study → List AVU
  make_sample_acl : Sample → Study → String → List AC

/-- Modelled from the spec: the object-store collaborator calls of
`npg_irods.common` and `npg_irods.metadata.lims` (`update_metadata`,
`ensure_consent_withdrawn`, `update_permissions`) are not under `src/`.
Each is modelled by the changed-state boolean it returns for the item under
reconciliation. -/
structure StoreEnv where
  update_metadata : List AVU → Bool
  ensure_consent_withdrawn : Bool
  update_permissions : List AC → Bool

/-- The observable state of one stored object (Collection or DataObject):
its zone (the result of `infer_zone`), its metadata AVUs, and whether
`has_consent_withdrawn_metadata` holds for it (modelled from the spec: the
marker test lives outside `src/`). -/
structure Item where
  zone : String
  avus : List AVU
  consent_withdrawn : Bool

/-- The observable writes `ensure_secondary_metadata_updated` performs, in
call order. -/
inductive Effect
  | metadataUpdate (target : List AVU)
  | consentWithdrawnEnforce
  | nonconsentedLockdown
  | permissionsUpdate (acl : List AC)
deriving DecidableEq

/-- The three permission branches of step 5 of the reconciliation state
machine; the metadata write is not one of them. -/
def Effect.isPermissionEffect : Effect → Bool
  | .metadataUpdate _ => false
  | .consentWithdrawnEnforce => true
  | .nonconsentedLockdown => true
  | .permissionsUpdate _ => true

/-- `ensure_secondary_metadata_updated`: parse every `component` AVU,
resolve each component against the warehouse, accumulate derived sample
metadata, study metadata and ACL entries across all resolved facts, apply
the metadata write, then execute exactly one of the three permission
branches in priority order (consent withdrawn, non-consented human
lockdown, normal accumulated ACL).  Returns the changed flag and the trace
of writes performed; parse and resolver errors propagate. -/
def ensure_secondary_metadata_updated (env : LimsEnv) (store : StoreEnv)
    (rows : List FlowcellRow) (item : Item)
    (include_controls : Bool := false) :
    Except Err (Bool × List Effect) :=
  match (item.avus.filter (fun a => a.attr == componentAttr)).mapM
      Component.from_avu with
  | .error e => .error e
  | .ok components =>
    match components.mapM
        (fun c => find_flowcells_by_component rows c include_controls) with
    | .error e => .error e
    | .ok fcss =>
      let facts := fcss.flatten
      let secondary_metadata := facts.flatMap (fun fc =>
        env.make_sample_metadata fc.sample ++ env.make_study_metadata fc.study)
      let acl := facts.flatMap (fun fc =>
        env.make_sample_acl fc.sample fc.study item.zone)
      let meta_update := store.update_metadata secondary_metadata
      if item.consent_withdrawn then
        .ok (meta_update || store.ensure_consent_withdrawn,
          [.metadataUpdate secondary_metadata, .consentWithdrawnEnforce])
      else if components.any Component.contains_nonconsented_human then
        .ok (meta_update || store.ensure_consent_withdrawn,
          [.metadataUpdate secondary_metadata, .nonconsentedLockdown])
      else
        .ok (meta_update || store.update_permissions acl,
          [.metadataUpdate secondary_metadata, .permissionsUpdate acl])

/- ===================== Product extractor ===================== -/

/-- The two failure classes of `mlwh_locations.illumina`:
`MissingMetadataError` and `ExcludedObjectException`. -/
inductive ProdError
  | missingMetadata (msg : String)
  | excludedObject (msg : String)
deriving DecidableEq

/-- One exportable product record, as `create_product_dict` assembles it. -/
structure Product where
  seq_platform_name : String
  pipeline_name : String
  irods_root_collection : String
  irods_data_relative_path : String
  id_product : String
deriving DecidableEq

/-- A data object as `create_product_dict` observes it: its collection path
(`str(obj.path)`), its name and its metadata. -/
structure DataObj where
  path : String
  name : String
  meta : List AVU
deriving DecidableEq

def isPrefixChars : List Char → List Char → Bool
  | [], _ => true
  | _ :: _, [] => false
  | p :: ps, c :: cs => p == c && isPrefixChars ps cs

def containsChars (pat : List Char) : List Char → Bool
  | [] => isPrefixChars pat []
  | c :: cs => isPrefixChars pat (c :: cs) || containsChars pat cs

/-- Python's substring test `pat in s`. -/
def strContains (s pat : String) : Bool :=
  containsChars pat.data s.data

def platformIllumina : String := "illumina"

def pipelineNpgProd : String := "npg-prod"

/-- Does one metadata entry trigger the exclusion rule of
`create_product_dict`?  Tag index `"0"`, a reference containing `PhiX`, or
a `component` value containing a `subset` key. -/
def exclusionTrigger (m : AVU) : Bool :=
  (m.attr == "tag_index" && m.value == "0")
    || (m.attr == "reference" && strContains m.value "PhiX")
    || (m.attr == "component" && strContains m.value "subset")

/-- The metadata loop of `create_product_dict`: walk the AVUs in order,
raising `ExcludedObjectException` at the first exclusion trigger, otherwise
recording the last seen `id_product` and `alt_process` override. -/
def scanMeta (obj : DataObj) :
    List AVU → (Option String × String) → Except ProdError (Option String × String)
  | [], st => .ok st
  | m :: rest, (idp, pipeline) =>
    if exclusionTrigger m then
      .error (.excludedObject "object is in an excluded object class")
    else
      let idp2 := if m.attr == "id_product" then some m.value else idp
      let pipeline2 :=
        if m.attr == "alt_process" then "alt_" ++ m.value else pipeline
      scanMeta obj rest (idp2, pipeline2)

/-- `create_product_dict`: a data object whose extension does not match the
target, or whose collection path contains `ranger`, is excluded outright;
otherwise its metadata is scanned and the record requires an `id_product`
attribute, whose absence is a `MissingMetadataError`. -/
def create_product_dict (obj : DataObj) (ext : String) :
    Except ProdError Product :=
  if ((obj.name.splitOn ".").getLastD "" == ext)
      && !(strContains obj.path "ranger") then
    match scanMeta obj obj.meta (none, pipelineNpgProd) with
    | .error e => .error e
    | .ok (some idp, pipeline) =>
      .ok ⟨platformIllumina, pipeline, obj.path, obj.name, idp⟩
    | .ok (none, _) =>
      .error (.missingMetadata "id_product metadata not found")
  else
    .error (.excludedObject "object is in an excluded class")

/-- `extract_products`: partition a list of per-object results into the
successful product records and the two logged failure classes.  The
function is total: a `MissingMetadataError` is logged at warning severity
and skipped, an `ExcludedObjectException` is logged at debug severity and
skipped, so no single failure aborts the batch.  Returns
`(products, warning log, debug log)`. -/
def extract_products (results : List (Except ProdError (Option Product))) :
    List Product × List String × List String :=
  match results with
  | [] => ([], [], [])
  | r :: rs =>
    let rec2 := extract_products rs
    match r with
    | .ok (some p) => (p :: rec2.1, rec2.2.1, rec2.2.2)
    | .ok none => rec2
    | .error (.missingMetadata m) => (rec2.1, m :: rec2.2.1, rec2.2.2)
    | .error (.excludedObject m) => (rec2.1, rec2.2.1, m :: rec2.2.2)

/- ===================== Proof-support definitions ===================== -/

/-- Accumulate a run of decimal digit characters onto a value, exactly as
the `numVal` state of the reader does. -/
def pushDigits (a : Nat) (ds : List Char) : Nat :=
  ds.foldl (fun x c => 10 * x + (c.toNat - 48)) a

/-- A trivial lims environment used by concrete witnesses. -/
def limsEnv0 : LimsEnv :=
  ⟨fun _ => [], fun _ => [], fun _ _ _ => []⟩

/-- A trivial store environment used by concrete witnesses. -/
def storeEnv0 : StoreEnv :=
  ⟨fun _ => false, false, fun _ => false⟩

/-- A consent-withdrawn item with no component metadata, used by concrete
witnesses. -/
def itemWithdrawn0 : Item :=
  ⟨"seq", [], true⟩

/-- A concrete flowcell row fixture for run 24338, position 1, tag `i`. -/
def fcRow (i : Int) : FlowcellRow :=
  ⟨i, 24338, 1, some i, ⟨i⟩, ⟨1⟩⟩

/-- The spec's worked example: rows with tag indices 1, 2 and 3 for run
24338 position 1. -/
def exampleRows : List FlowcellRow :=
  [fcRow 1, fcRow 2, fcRow 3]

/-- A concrete descriptor used by the round-trip witness. -/
def exampleDescriptor : String :=
  "\x7b\"run_id\":24338,\"position\":1,\"tag_index\":3,\"subset\":\"phix\"\x7d"

/-- The component the example descriptor denotes. -/
def exampleComponent : Component :=
  ⟨24338, 1, some 3, some SeqSubset.phix⟩

/-- A concrete data object inside a `ranger` collection, used by the
exclusion witnesses. -/
def rangerObj : DataObj :=
  ⟨"/seq/24338/ranger_lane1", "x.cram", [⟨"id_product", "abc"⟩]⟩

/-- A concrete data object with tag-0 metadata and an `id_product`, used by
the exclusion-precedence witness. -/
def tagZeroObj : DataObj :=
  ⟨"/seq/24338", "x.cram", [⟨"id_product", "abc"⟩, ⟨"tag_index", "0"⟩]⟩

/- ===================== Helper lemmas ===================== -/

theorem mem_insertionSortRel {α : Type} (le : α → α → Prop) [DecidableRel le]
    (l : List α) (x : α) : x ∈ List.insertionSort le l ↔ x ∈ l :=
  (List.perm_insertionSort le l).mem_iff

theorem mem_orderById (l : List FlowcellRow) (r : FlowcellRow) :
    r ∈ orderById l ↔ r ∈ l := by
  unfold orderById
  exact mem_insertionSortRel _ l r

theorem mem_query_result (rows : List FlowcellRow) (p : FlowcellRow → Bool)
    (r : FlowcellRow) :
    r ∈ orderById ((rows.filter p).dedup) ↔ r ∈ rows ∧ p r = true := by
  rw [mem_orderById, List.mem_dedup, List.mem_filter]

/- ===================== C1 ===================== -/

/-- C1: for a component whose tag index is a control value (198 or 888),
`find_flowcells_by_component` with `include_controls = false` fails with
`InvalidQueryError` and never returns a result list, while with
`include_controls = true` it returns exactly the rows of the run/position
whose tag index equals that control value. -/
theorem control_tag_query_rule (rows : List FlowcellRow) (c : Component)
    (t : Int) (ht : c.tag_index = some t) (hctl : t = 198 ∨ t = 888) :
    (∃ msg, find_flowcells_by_component rows c false =
      .error (.invalidQuery msg)) ∧
    (∃ l, find_flowcells_by_component rows c true = .ok l ∧
      ∀ r, r ∈ l ↔ r ∈ rows ∧ r.id_run = c.id_run ∧
        r.position = c.position ∧ r.tag_index = some t) := by
  constructor
  · refine ⟨"Attempted to exclude controls for a query specifically requesting a control tag index", ?_⟩
    unfold find_flowcells_by_component
    rw [ht]
    rcases hctl with h | h <;> subst h <;> simp [tagControl198, tagControl888]
  · have heq : find_flowcells_by_component rows c true =
        .ok (orderById ((((rows.filter (fun r =>
          decide (r.id_run = c.id_run) && decide (r.position = c.position))).filter
            (fun r => r.tag_index == some t)).dedup))) := by
      unfold find_flowcells_by_component
      rw [ht]
      rcases hctl with h | h <;> subst h <;>
        simp [tagControl198, tagControl888]
    refine ⟨_, heq, ?_⟩
    intro r
    rw [mem_orderById, List.mem_dedup, List.mem_filter, List.mem_filter]
    simp only [Bool.and_eq_true, decide_eq_true_eq, beq_iff_eq]
    tauto

/-- Witness for C1 at a concrete control component and concrete rows. -/
theorem control_tag_query_rule_witness :
    (∃ msg, find_flowcells_by_component exampleRows ⟨24338, 1, some 198, none⟩ false =
      .error (.invalidQuery msg)) ∧
    (∃ l, find_flowcells_by_component exampleRows ⟨24338, 1, some 198, none⟩ true = .ok l ∧
      ∀ r, r ∈ l ↔ r ∈ exampleRows ∧ r.id_run = 24338 ∧
        r.position = 1 ∧ r.tag_index = some 198) :=
  control_tag_query_rule exampleRows ⟨24338, 1, some 198, none⟩ 198 rfl (Or.inl rfl)

/- ===================== C2 ===================== -/

/-- C2: for a component whose tag index is 0 (the bin),
`find_flowcells_by_component` filters for rows of the run/position whose
tag index is non-null — any tag value — rather than for rows whose tag
index equals 0. -/
theorem bin_tag_query_rule (rows : List FlowcellRow) (c : Component)
    (ic : Bool) (ht : c.tag_index = some 0) :
    ∃ l, find_flowcells_by_component rows c ic = .ok l ∧
      ∀ r, r ∈ l ↔ r ∈ rows ∧ r.id_run = c.id_run ∧
        r.position = c.position ∧ r.tag_index ≠ none := by
  have heq : find_flowcells_by_component rows c ic =
      .ok (orderById ((((rows.filter (fun r =>
        decide (r.id_run = c.id_run) && decide (r.position = c.position))).filter
          (fun r => r.tag_index.isSome)).dedup))) := by
    unfold find_flowcells_by_component
    rw [ht]
    simp [tagControl198, tagControl888, tagBin]
  refine ⟨_, heq, ?_⟩
  intro r
  rw [mem_orderById, List.mem_dedup, List.mem_filter, List.mem_filter]
  simp only [Bool.and_eq_true, decide_eq_true_eq, Option.isSome_iff_ne_none]
  tauto

/-- Witness for C2: the spec's worked example — the bin component of run
24338 position 1 resolved against rows with tag indices 1, 2 and 3 returns
all three rows. -/
theorem bin_tag_query_rule_witness :
    (∃ l, find_flowcells_by_component exampleRows ⟨24338, 1, some 0, none⟩ false = .ok l ∧
      ∀ r, r ∈ l ↔ r ∈ exampleRows ∧ r.id_run = 24338 ∧
        r.position = 1 ∧ r.tag_index ≠ none) ∧
    find_flowcells_by_component exampleRows ⟨24338, 1, some 0, none⟩ false =
      .ok [fcRow 1, fcRow 2, fcRow 3] :=
  ⟨bin_tag_query_rule exampleRows ⟨24338, 1, some 0, none⟩ false rfl, by decide⟩

/- ===================== C3 ===================== -/

/-- C3: `contains_nonconsented_human` is true exactly when the subset is
`human` or the x/y-human variant denoting non-consented origin (`xahuman`),
and false when the subset is `phix` or absent. -/
theorem nonconsented_human_rule (c : Component) :
    (c.contains_nonconsented_human = true ↔
      (c.subset = some SeqSubset.human ∨ c.subset = some SeqSubset.xahuman)) ∧
    ((c.subset = some SeqSubset.phix ∨ c.subset = none) →
      c.contains_nonconsented_human = false) := by
  obtain ⟨r, p, t, s⟩ := c
  rcases s with _ | s
  · simp [Component.contains_nonconsented_human]
  · rcases s <;> simp [Component.contains_nonconsented_human]

/-- Witness for C3 at the phix subset. -/
theorem nonconsented_human_rule_witness :
    Component.contains_nonconsented_human ⟨1, 1, none, some SeqSubset.phix⟩ = false :=
  (nonconsented_human_rule ⟨1, 1, none, some SeqSubset.phix⟩).2 (Or.inl rfl)

/- ===================== C5 ===================== -/

/-- C5: the change scan with checkpoint `since` yields a component triple
exactly when some joined warehouse row carrying that triple has at least
one of its four timestamps (sample, study, flowcell association, product
metrics) at or after the checkpoint — an inclusive boundary and a logical
OR across the four; a row whose four timestamps are all strictly before
the checkpoint contributes nothing. -/
theorem change_scan_rule (rows : List ChangedRow) (since : Int)
    (c : Component) :
    c ∈ find_components_changed rows since ↔
      ∃ r, r ∈ rows ∧
        (since ≤ r.sample_recorded_at ∨ since ≤ r.study_recorded_at ∨
         since ≤ r.flowcell_recorded_at ∨ since ≤ r.pm_last_changed) ∧
        c = ⟨r.id_run, r.position, r.tag_index, none⟩ := by
  unfold find_components_changed
  rw [List.mem_dedup, List.mem_map]
  constructor
  · rintro ⟨r, hr, rfl⟩
    rw [List.mem_filter] at hr
    obtain ⟨hmem, hcond⟩ := hr
    rw [orderChangedById, mem_insertionSortRel] at hmem
    refine ⟨r, hmem, ?_, rfl⟩
    simp only [changedSince, Bool.or_eq_true, decide_eq_true_eq] at hcond
    tauto
  · rintro ⟨r, hmem, hcond, rfl⟩
    refine ⟨r, ?_, rfl⟩
    rw [List.mem_filter, orderChangedById, mem_insertionSortRel]
    refine ⟨hmem, ?_⟩
    simp only [changedSince, Bool.or_eq_true, decide_eq_true_eq]
    tauto

/- ===================== C7 ===================== -/

/-- C7: constructing a component with a present subset value succeeds
exactly when the value belongs to the closed enumerated set of subset
strings; any other value is a parse error. -/
theorem subset_closed_set_rule (id_run position : Int) (tag : Option Int)
    (s : String) :
    (∃ c, Component.init id_run position tag (some s) = .ok c) ↔
      (s = SeqSubset.human.value ∨ s = SeqSubset.xahuman.value ∨
       s = SeqSubset.yhuman.value ∨ s = SeqSubset.phix.value) := by
  simp only [Component.init]
  constructor
  · rintro ⟨c, hc⟩
    by_contra hall
    push_neg at hall
    obtain ⟨g1, g2, g3, g4⟩ := hall
    rw [if_neg g1, if_neg g2, if_neg g3, if_neg g4] at hc
    exact absurd hc (by simp)
  · rintro (h | h | h | h) <;> subst h
    · exact ⟨_, by rw [if_pos rfl]⟩
    · exact ⟨_, by rw [if_neg (by decide), if_pos rfl]⟩
    · exact ⟨_, by rw [if_neg (by decide), if_neg (by decide), if_pos rfl]⟩
    · exact ⟨_, by rw [if_neg (by decide), if_neg (by decide),
        if_neg (by decide), if_pos rfl]⟩

/- ===================== C4 ===================== -/

/-- C4: every successful reconciliation performs exactly one of the three
permission branches, in priority order: an object already carrying the
consent-withdrawn marker gets the consent-withdrawn ACL enforced and never
the normal accumulated-ACL permission write; otherwise a component
reporting non-consented human content triggers the lockdown; otherwise the
accumulated ACL is written. -/
theorem ensure_ok_trace_shape (env : LimsEnv) (store : StoreEnv)
    (rows : List FlowcellRow) (item : Item) (ic : Bool) (b : Bool)
    (tr : List Effect)
    (h : ensure_secondary_metadata_updated env store rows item ic = .ok (b, tr)) :
    ∃ cs md acl,
      (item.avus.filter (fun a => a.attr == componentAttr)).mapM
        Component.from_avu = .ok cs ∧
      tr = [Effect.metadataUpdate md,
        if item.consent_withdrawn = true then Effect.consentWithdrawnEnforce
        else if cs.any Component.contains_nonconsented_human then
          Effect.nonconsentedLockdown
        else Effect.permissionsUpdate acl] := by
  unfold ensure_secondary_metadata_updated at h
  cases hp : (item.avus.filter (fun a => a.attr == componentAttr)).mapM
      Component.from_avu with
  | error e =>
    rw [hp] at h
    simp at h
  | ok cs =>
    rw [hp] at h
    dsimp only at h
    cases hf : cs.mapM (fun c => find_flowcells_by_component rows c ic) with
    | error e =>
      rw [hf] at h
      simp at h
    | ok fcss =>
      rw [hf] at h
      dsimp only at h
      by_cases hw : item.consent_withdrawn = true
      · rw [if_pos hw] at h
        injection h with h2
        rw [Prod.mk.injEq] at h2
        obtain ⟨hb, htr⟩ := h2
        subst htr
        refine ⟨cs, fcss.flatten.flatMap (fun fc =>
          env.make_sample_metadata fc.sample ++ env.make_study_metadata fc.study),
          [], rfl, ?_⟩
        rw [if_pos hw]
      · rw [if_neg hw] at h
        by_cases hany : cs.any Component.contains_nonconsented_human = true
        · rw [if_pos hany] at h
          injection h with h2
          rw [Prod.mk.injEq] at h2
          obtain ⟨hb, htr⟩ := h2
          subst htr
          refine ⟨cs, fcss.flatten.flatMap (fun fc =>
            env.make_sample_metadata fc.sample ++ env.make_study_metadata fc.study),
            [], rfl, ?_⟩
          rw [if_neg hw, if_pos hany]
        · rw [if_neg hany] at h
          injection h with h2
          rw [Prod.mk.injEq] at h2
          obtain ⟨hb, htr⟩ := h2
          subst htr
          refine ⟨cs, fcss.flatten.flatMap (fun fc =>
            env.make_sample_metadata fc.sample ++ env.make_study_metadata fc.study),
            fcss.flatten.flatMap (fun fc =>
              env.make_sample_acl fc.sample fc.study item.zone), rfl, ?_⟩
          rw [if_neg hw, if_neg hany]

theorem permission_branch_rule (env : LimsEnv) (store : StoreEnv)
    (rows : List FlowcellRow) (item : Item) (ic : Bool) :
    (∀ b tr, ensure_secondary_metadata_updated env store rows item ic = .ok (b, tr) →
      (tr.filter Effect.isPermissionEffect).length = 1) ∧
    (item.consent_withdrawn = true →
      ∀ b tr, ensure_secondary_metadata_updated env store rows item ic = .ok (b, tr) →
        tr.filter Effect.isPermissionEffect = [Effect.consentWithdrawnEnforce] ∧
        ∀ acl, Effect.permissionsUpdate acl ∉ tr) ∧
    (item.consent_withdrawn = false →
      ∀ cs, (item.avus.filter (fun a => a.attr == componentAttr)).mapM
          Component.from_avu = .ok cs →
        cs.any Component.contains_nonconsented_human = true →
        ∀ b tr, ensure_secondary_metadata_updated env store rows item ic = .ok (b, tr) →
          tr.filter Effect.isPermissionEffect = [Effect.nonconsentedLockdown]) ∧
    (item.consent_withdrawn = false →
      ∀ cs, (item.avus.filter (fun a => a.attr == componentAttr)).mapM
          Component.from_avu = .ok cs →
        cs.any Component.contains_nonconsented_human = false →
        ∀ b tr, ensure_secondary_metadata_updated env store rows item ic = .ok (b, tr) →
          ∃ acl, tr.filter Effect.isPermissionEffect = [Effect.permissionsUpdate acl]) := by
  refine ⟨?_, ?_, ?_, ?_⟩
  · intro b tr h
    obtain ⟨cs, md, acl, hp, htr⟩ := ensure_ok_trace_shape env store rows item ic b tr h
    subst htr
    by_cases hw : item.consent_withdrawn = true
    · rw [if_pos hw]
      rfl
    · rw [if_neg hw]
      by_cases hany : cs.any Component.contains_nonconsented_human = true
      · rw [if_pos hany]
        rfl
      · rw [if_neg hany]
        rfl
  · intro hw b tr h
    obtain ⟨cs, md, acl, hp, htr⟩ := ensure_ok_trace_shape env store rows item ic b tr h
    subst htr
    rw [if_pos hw]
    refine ⟨rfl, ?_⟩
    intro acl2 hacl
    simp at hacl
  · intro hw cs0 hcs0 hany b tr h
    obtain ⟨cs, md, acl, hp, htr⟩ := ensure_ok_trace_shape env store rows item ic b tr h
    subst htr
    rw [hp] at hcs0
    injection hcs0 with hcs0
    subst hcs0
    rw [if_neg (by rw [hw]; exact Bool.false_ne_true), if_pos hany]
    rfl
  · intro hw cs0 hcs0 hany b tr h
    obtain ⟨cs, md, acl, hp, htr⟩ := ensure_ok_trace_shape env store rows item ic b tr h
    subst htr
    rw [hp] at hcs0
    injection hcs0 with hcs0
    subst hcs0
    rw [if_neg (by rw [hw]; exact Bool.false_ne_true),
      if_neg (by rw [hany]; exact Bool.false_ne_true)]
    exact ⟨acl, rfl⟩

/-- Witness for C4 at a concrete consent-withdrawn item with trivial
collaborators: the trace holds the consent-withdrawn enforcement and no
permissions write. -/
theorem permission_branch_rule_witness :
    ensure_secondary_metadata_updated limsEnv0 storeEnv0 [] itemWithdrawn0 false =
      .ok (false, [Effect.metadataUpdate [], Effect.consentWithdrawnEnforce]) ∧
    List.filter Effect.isPermissionEffect
        [Effect.metadataUpdate [], Effect.consentWithdrawnEnforce] =
      [Effect.consentWithdrawnEnforce] ∧
    ∀ acl, Effect.permissionsUpdate acl ∉
      [Effect.metadataUpdate [], Effect.consentWithdrawnEnforce] :=
  ⟨rfl,
   ((permission_branch_rule limsEnv0 storeEnv0 [] itemWithdrawn0 false).2.1
      rfl false _ rfl).1,
   ((permission_branch_rule limsEnv0 storeEnv0 [] itemWithdrawn0 false).2.1
      rfl false _ rfl).2⟩

/- ===================== C8 ===================== -/

/-- C8: `extract_products` is a total function of the per-object results —
both failure classes are caught, so no single failure aborts the batch —
and it returns exactly the successful product records, with each
missing-metadata failure logged to the warning log and each excluded-object
failure logged to the debug log. -/
theorem extract_products_partition
    (results : List (Except ProdError (Option Product))) :
    (extract_products results).1 =
      results.filterMap (fun r => match r with
        | .ok p => p
        | .error _ => none) ∧
    (extract_products results).2.1 =
      results.filterMap (fun r => match r with
        | .error (.missingMetadata m) => some m
        | _ => none) ∧
    (extract_products results).2.2 =
      results.filterMap (fun r => match r with
        | .error (.excludedObject m) => some m
        | _ => none) := by
  induction results with
  | nil => exact ⟨rfl, rfl, rfl⟩
  | cons r rs ih =>
    obtain ⟨ih1, ih2, ih3⟩ := ih
    rcases r with p | e
    · rcases p with _ | p <;>
        simp [extract_products, List.filterMap_cons, ih1, ih2, ih3]
    · rcases e with m | m <;>
        simp [extract_products, List.filterMap_cons, ih1, ih2, ih3]

/- ===================== C9 ===================== -/

/-- C9: a data object whose collection path contains the substring
`ranger` is excluded by `create_product_dict` — it raises
`ExcludedObjectException` and yields no product record — even when the
object's extension matches the target extension.  This rule is independent
of the metadata-driven exclusion list. -/
theorem ranger_exclusion_rule (obj : DataObj) (ext : String)
    (h : strContains obj.path "ranger" = true) :
    ∃ msg, create_product_dict obj ext = .error (.excludedObject msg) := by
  refine ⟨"object is in an excluded class", ?_⟩
  unfold create_product_dict
  rw [h]
  simp

/-- Witness for C9 at a concrete object in a `ranger` collection whose
extension matches the target. -/
theorem ranger_exclusion_rule_witness :
    ∃ msg, create_product_dict rangerObj "cram" =
      .error (.excludedObject msg) :=
  ranger_exclusion_rule rangerObj "cram" (by decide)

/- ===================== C10 ===================== -/

theorem scanMeta_excluded (obj : DataObj) (l : List AVU) (m : AVU)
    (hm : m ∈ l) (ht : exclusionTrigger m = true) :
    ∀ st, scanMeta obj l st =
      .error (.excludedObject "object is in an excluded object class") := by
  induction l with
  | nil => cases hm
  | cons a rest ih =>
    intro st
    obtain ⟨idp, pipeline⟩ := st
    rcases List.mem_cons.mp hm with rfl | hmem
    · simp [scanMeta, ht]
    · by_cases ha : exclusionTrigger a = true
      · simp [scanMeta, ha]
      · rw [Bool.not_eq_true] at ha
        simp only [scanMeta, ha, Bool.false_eq_true, if_false]
        exact ih hmem _

/-- C10: a data object whose metadata holds at least one
exclusion-triggering entry (tag index `"0"`, a PhiX reference, or a
component value containing a subset key) makes `create_product_dict` raise
`ExcludedObjectException` and never `MissingMetadataError`, whether or not
an `id_product` attribute is present: exclusion takes precedence over the
missing-metadata error. -/
theorem exclusion_precedence_rule (obj : DataObj) (ext : String)
    (h : ∃ m, m ∈ obj.meta ∧ exclusionTrigger m = true) :
    ∃ msg, create_product_dict obj ext = .error (.excludedObject msg) := by
  obtain ⟨m, hm, ht⟩ := h
  unfold create_product_dict
  by_cases hcond : (((obj.name.splitOn ".").getLastD "" == ext)
      && !(strContains obj.path "ranger")) = true
  · rw [if_pos hcond, scanMeta_excluded obj obj.meta m hm ht]
    exact ⟨_, rfl⟩
  · rw [Bool.not_eq_true] at hcond
    rw [if_neg (by rw [hcond]; exact Bool.false_ne_true)]
    exact ⟨_, rfl⟩

/-- Witness for C10 at a concrete object carrying both an `id_product`
attribute and a tag-0 exclusion trigger. -/
theorem exclusion_precedence_rule_witness :
    ∃ msg, create_product_dict tagZeroObj "cram" =
      .error (.excludedObject msg) :=
  exclusion_precedence_rule tagZeroObj "cram"
    ⟨⟨"tag_index", "0"⟩, by decide, by decide⟩

/- ===================== C6: round-trip machinery ===================== -/

theorem digitChar_toNat (d : Nat) (h : d < 10) : (digitChar d).toNat = 48 + d := by
  interval_cases d <;> rfl

theorem digitChar_isDigit (d : Nat) (h : d < 10) : (digitChar d).isDigit = true := by
  interval_cases d <;> rfl

theorem natChars_eq (n : Nat) :
    natChars n = if n < 10 then [digitChar n]
      else natChars (n / 10) ++ [digitChar (n % 10)] := by
  rw [natChars]
  split <;> rfl

theorem natChars_ne_nil (n : Nat) : natChars n ≠ [] := by
  rw [natChars_eq]
  by_cases h : n < 10
  · rw [if_pos h]
    simp
  · rw [if_neg h]
    simp

theorem natChars_digits (n : Nat) : ∀ c ∈ natChars n, c.isDigit = true := by
  induction n using Nat.strong_induction_on with
  | _ n ih =>
    rw [natChars_eq]
    by_cases h : n < 10
    · rw [if_pos h]
      intro c hc
      rw [List.mem_singleton] at hc
      subst hc
      exact digitChar_isDigit n h
    · rw [if_neg h]
      intro c hc
      rcases List.mem_append.mp hc with h1 | h1
      · exact ih (n / 10) (Nat.div_lt_self (by omega) (by omega)) c h1
      · rw [List.mem_singleton] at h1
        subst h1
        exact digitChar_isDigit _ (Nat.mod_lt _ (by omega))

theorem pushDigits_nil (a : Nat) : pushDigits a [] = a := rfl

theorem pushDigits_cons (a : Nat) (c : Char) (ds : List Char) :
    pushDigits a (c :: ds) = pushDigits (10 * a + (c.toNat - 48)) ds := rfl

theorem pushDigits_append (a : Nat) (xs ys : List Char) :
    pushDigits a (xs ++ ys) = pushDigits (pushDigits a xs) ys := by
  unfold pushDigits
  rw [List.foldl_append]

theorem pushDigits_natChars (n : Nat) :
    ∀ a, pushDigits a (natChars n) = a * 10 ^ (natChars n).length + n := by
  induction n using Nat.strong_induction_on with
  | _ n ih =>
    intro a
    rw [natChars_eq]
    by_cases h : n < 10
    · rw [if_pos h, pushDigits_cons, pushDigits_nil, digitChar_toNat n h,
        List.length_singleton, pow_one]
      omega
    · rw [if_neg h, pushDigits_append,
        ih (n / 10) (Nat.div_lt_self (by omega) (by omega)) a,
        pushDigits_cons, pushDigits_nil,
        digitChar_toNat _ (Nat.mod_lt _ (by omega)),
        List.length_append, List.length_singleton, pow_succ]
      have h1 : 48 + n % 10 - 48 = n % 10 := by omega
      rw [h1]
      generalize (10 : Nat) ^ (natChars (n / 10)).length = X
      calc 10 * (a * X + n / 10) + n % 10
          = a * (X * 10) + (10 * (n / 10) + n % 10) := by ring
        _ = a * (X * 10) + n := by rw [Nat.div_add_mod]

theorem pushDigits_natChars_zero (n : Nat) : pushDigits 0 (natChars n) = n := by
  rw [pushDigits_natChars]
  simp

theorem runP_cons (st : PSt) (c : Char) (cs : List Char) (st2 : PSt)
    (h : stepP st c = some st2) : runP st (c :: cs) = runP st2 cs := by
  simp only [runP, h]

theorem stepP_start_open : stepP PSt.start openBraceCh = some (.afterOpen []) := rfl

theorem stepP_afterOpen_quote (o : JObj) :
    stepP (.afterOpen o) quoteCh = some (.key [] o) := rfl

theorem stepP_afterComma_quote (o : JObj) :
    stepP (.afterComma o) quoteCh = some (.key [] o) := rfl

theorem stepP_key_quote (acc : List Char) (o : JObj) :
    stepP (.key acc o) quoteCh = some (.afterKey (String.mk acc) o) := rfl

theorem stepP_key_other (acc : List Char) (o : JObj) (c : Char)
    (h1 : (c == quoteCh) = false) (h2 : (c == backslashCh) = false) :
    stepP (.key acc o) c = some (.key (acc ++ [c]) o) := by
  simp only [stepP, h1, h2, Bool.false_eq_true, if_false]

theorem stepP_afterKey_colon (k : String) (o : JObj) :
    stepP (.afterKey k o) ':' = some (.beforeVal k o) := rfl

theorem stepP_beforeVal_quote (k : String) (o : JObj) :
    stepP (.beforeVal k o) quoteCh = some (.strVal k [] o) := rfl

theorem stepP_beforeVal_minus (k : String) (o : JObj) :
    stepP (.beforeVal k o) '-' = some (.numVal k true none o) := rfl

theorem stepP_beforeVal_digit (k : String) (o : JObj) (c : Char)
    (hc : c.isDigit = true) :
    stepP (.beforeVal k o) c = some (.numVal k false (some (c.toNat - 48)) o) := by
  have h1 : (c == quoteCh) = false := by
    by_contra h
    rw [Bool.not_eq_false, beq_iff_eq] at h
    subst h
    exact absurd hc (by decide)
  have h2 : (c == '-') = false := by
    by_contra h
    rw [Bool.not_eq_false, beq_iff_eq] at h
    subst h
    exact absurd hc (by decide)
  simp only [stepP, h1, h2, hc, Bool.false_eq_true, if_false, if_true]

theorem stepP_strVal_quote (k : String) (acc : List Char) (o : JObj) :
    stepP (.strVal k acc o) quoteCh =
      some (.afterVal (o ++ [(k, JScalar.str (String.mk acc))])) := rfl

theorem stepP_strVal_other (k : String) (acc : List Char) (o : JObj) (c : Char)
    (h1 : (c == quoteCh) = false) (h2 : (c == backslashCh) = false) :
    stepP (.strVal k acc o) c = some (.strVal k (acc ++ [c]) o) := by
  simp only [stepP, h1, h2, Bool.false_eq_true, if_false]

theorem stepP_numVal_digit (k : String) (neg : Bool) (a : Nat) (o : JObj)
    (c : Char) (hc : c.isDigit = true) :
    stepP (.numVal k neg (some a) o) c =
      some (.numVal k neg (some (10 * a + (c.toNat - 48))) o) := by
  simp only [stepP, hc, if_true, Option.getD_some]

theorem stepP_numVal_first_digit (k : String) (neg : Bool) (o : JObj)
    (c : Char) (hc : c.isDigit = true) :
    stepP (.numVal k neg none o) c =
      some (.numVal k neg (some (c.toNat - 48)) o) := by
  simp only [stepP, hc, if_true, Option.getD_none, Nat.mul_zero, Nat.zero_add]

theorem stepP_numVal_comma (k : String) (neg : Bool) (a : Nat) (o : JObj) :
    stepP (.numVal k neg (some a) o) ',' =
      some (.afterComma (o ++ [(k, JScalar.num (commitNum neg a))])) := by
  have hd : (',').isDigit = false := by decide
  simp only [stepP, hd, Bool.false_eq_true, if_false]
  rfl

theorem stepP_numVal_close (k : String) (neg : Bool) (a : Nat) (o : JObj) :
    stepP (.numVal k neg (some a) o) closeBraceCh =
      some (.done (o ++ [(k, JScalar.num (commitNum neg a))])) := by
  have hd : closeBraceCh.isDigit = false := by decide
  simp only [stepP, hd, Bool.false_eq_true, if_false]
  rfl

theorem stepP_afterVal_comma (o : JObj) :
    stepP (.afterVal o) ',' = some (.afterComma o) := rfl

theorem stepP_afterVal_close (o : JObj) :
    stepP (.afterVal o) closeBraceCh = some (.done o) := rfl

theorem runP_digit_run (ds : List Char) (hds : ∀ c ∈ ds, c.isDigit = true) :
    ∀ (k : String) (neg : Bool) (a : Nat) (o : JObj) (rest : List Char),
    runP (.numVal k neg (some a) o) (ds ++ rest) =
      runP (.numVal k neg (some (pushDigits a ds)) o) rest := by
  induction ds with
  | nil =>
    intro k neg a o rest
    rfl
  | cons c ds ih =>
    intro k neg a o rest
    have hc : c.isDigit = true := hds c (List.mem_cons_self c ds)
    rw [List.cons_append,
      runP_cons _ _ _ _ (stepP_numVal_digit k neg a o c hc),
      pushDigits_cons]
    exact ih (fun x hx => hds x (List.mem_cons_of_mem c hx)) k neg _ o rest

theorem runP_key_run (ds : List Char)
    (hds : ∀ c ∈ ds, (c == quoteCh) = false ∧ (c == backslashCh) = false) :
    ∀ (acc : List Char) (o : JObj) (rest : List Char),
    runP (.key acc o) (ds ++ rest) = runP (.key (acc ++ ds) o) rest := by
  induction ds with
  | nil =>
    intro acc o rest
    rw [List.nil_append, List.append_nil]
  | cons c ds ih =>
    intro acc o rest
    obtain ⟨h1, h2⟩ := hds c (List.mem_cons_self c ds)
    rw [List.cons_append,
      runP_cons _ _ _ _ (stepP_key_other acc o c h1 h2),
      ih (fun x hx => hds x (List.mem_cons_of_mem c hx)) (acc ++ [c]) o rest,
      List.append_assoc, List.singleton_append]

theorem runP_str_run (ds : List Char)
    (hds : ∀ c ∈ ds, (c == quoteCh) = false ∧ (c == backslashCh) = false) :
    ∀ (k : String) (acc : List Char) (o : JObj) (rest : List Char),
    runP (.strVal k acc o) (ds ++ rest) = runP (.strVal k (acc ++ ds) o) rest := by
  induction ds with
  | nil =>
    intro k acc o rest
    rw [List.nil_append, List.append_nil]
  | cons c ds ih =>
    intro k acc o rest
    obtain ⟨h1, h2⟩ := hds c (List.mem_cons_self c ds)
    rw [List.cons_append,
      runP_cons _ _ _ _ (stepP_strVal_other k acc o c h1 h2),
      ih (fun x hx => hds x (List.mem_cons_of_mem c hx)) k (acc ++ [c]) o rest,
      List.append_assoc, List.singleton_append]

theorem commitNum_natAbs (n : Int) : commitNum (decide (n < 0)) n.natAbs = n := by
  unfold commitNum
  by_cases h : n < 0
  · rw [decide_eq_true h, if_pos rfl]
    omega
  · rw [decide_eq_false h, if_neg Bool.false_ne_true]
    omega

theorem runP_intChars (n : Int) (k : String) (o : JObj) (rest : List Char) :
    runP (.beforeVal k o) (intChars n ++ rest) =
      runP (.numVal k (decide (n < 0)) (some n.natAbs) o) rest := by
  obtain ⟨c, ds, hds⟩ : ∃ c ds, natChars n.natAbs = c :: ds := by
    cases h : natChars n.natAbs with
    | nil => exact absurd h (natChars_ne_nil _)
    | cons c ds => exact ⟨c, ds, rfl⟩
  have hdigits : ∀ x ∈ c :: ds, Char.isDigit x = true := by
    rw [← hds]
    exact natChars_digits n.natAbs
  have hc : c.isDigit = true := hdigits c (List.mem_cons_self c ds)
  have hacc : pushDigits (c.toNat - 48) ds = n.natAbs := by
    have h0 := pushDigits_natChars_zero n.natAbs
    rw [hds, pushDigits_cons] at h0
    simpa using h0
  by_cases hneg : n < 0
  · rw [intChars, if_pos hneg, hds, List.cons_append, List.cons_append,
      runP_cons _ _ _ _ (stepP_beforeVal_minus k o),
      runP_cons _ _ _ _ (stepP_numVal_first_digit k true o c hc),
      runP_digit_run ds (fun x hx => hdigits x (List.mem_cons_of_mem c hx)),
      hacc]
    have : decide (n < 0) = true := by
      rw [decide_eq_true_eq]
      exact hneg
    rw [this]
  · rw [intChars, if_neg hneg, hds, List.cons_append,
      runP_cons _ _ _ _ (stepP_beforeVal_digit k o c hc),
      runP_digit_run ds (fun x hx => hdigits x (List.mem_cons_of_mem c hx)),
      hacc]
    have : decide (n < 0) = false := by
      rw [decide_eq_false_iff_not]
      exact hneg
    rw [this]

theorem mk_data_eq (k : String) : String.mk k.data = k := rfl

theorem runP_field_num (st : PSt) (o : JObj) (k : String) (n : Int)
    (rest : List Char) (hst : stepP st quoteCh = some (.key [] o))
    (hk : ∀ c ∈ k.data, (c == quoteCh) = false ∧ (c == backslashCh) = false) :
    runP st (fieldChars (k, .num n) ++ rest) =
      runP (.numVal k (decide (n < 0)) (some n.natAbs) o) rest := by
  rw [fieldChars]
  simp only [List.cons_append, List.append_assoc]
  rw [runP_cons _ _ _ _ hst, runP_key_run k.data hk [] o _, List.nil_append,
    runP_cons _ _ _ _ (stepP_key_quote k.data o), mk_data_eq,
    runP_cons _ _ _ _ (stepP_afterKey_colon k o)]
  exact runP_intChars n k o rest

theorem runP_field_str (st : PSt) (o : JObj) (k : String) (s : String)
    (rest : List Char) (hst : stepP st quoteCh = some (.key [] o))
    (hk : ∀ c ∈ k.data, (c == quoteCh) = false ∧ (c == backslashCh) = false)
    (hs : ∀ c ∈ s.data, (c == quoteCh) = false ∧ (c == backslashCh) = false) :
    runP st (fieldChars (k, .str s) ++ rest) =
      runP (.afterVal (o ++ [(k, JScalar.str s)])) rest := by
  rw [fieldChars]
  simp only [scalarChars, List.cons_append, List.append_assoc]
  rw [runP_cons _ _ _ _ hst, runP_key_run k.data hk [] o _, List.nil_append,
    runP_cons _ _ _ _ (stepP_key_quote k.data o), mk_data_eq,
    runP_cons _ _ _ _ (stepP_afterKey_colon k o),
    runP_cons _ _ _ _ (stepP_beforeVal_quote k o),
    runP_str_run s.data hs k [] o _, List.nil_append,
    runP_cons _ _ _ _ (stepP_strVal_quote k s.data o), mk_data_eq,
    List.nil_append]

theorem subset_value_chars (s : SeqSubset) :
    ∀ c ∈ s.value.data, (c == quoteCh) = false ∧ (c == backslashCh) = false := by
  cases s <;> decide

theorem init_value_roundtrip (R P : Int) (tag : Option Int) (s : SeqSubset) :
    Component.init R P tag (some s.value) = .ok ⟨R, P, tag, some s⟩ := by
  cases s <;> rfl

theorem parse_repr_nn (R P : Int) :
    jsonParse (Component.repr ⟨R, P, none, none⟩) =
      some [(positionKey, JScalar.num P), (runKey, JScalar.num R)] := by
  show runP PSt.start (Component.reprChars ⟨R, P, none, none⟩) = _
  have hsf : sortFields (Component.rep ⟨R, P, none, none⟩) =
      [(positionKey, JScalar.num P), (runKey, JScalar.num R)] := rfl
  unfold Component.reprChars dumpObjChars
  rw [hsf]
  simp only [fieldsChars, List.cons_append, List.append_assoc]
  rw [runP_cons _ _ _ _ stepP_start_open,
    runP_field_num _ _ _ _ _ (stepP_afterOpen_quote _) (by decide),
    runP_cons _ _ _ _ (stepP_numVal_comma _ _ _ _), commitNum_natAbs,
    runP_field_num _ _ _ _ _ (stepP_afterComma_quote _) (by decide),
    runP_cons _ _ _ _ (stepP_numVal_close _ _ _ _), commitNum_natAbs]
  rfl

theorem parse_repr_tn (R P t : Int) :
    jsonParse (Component.repr ⟨R, P, some t, none⟩) =
      some [(positionKey, JScalar.num P), (runKey, JScalar.num R),
        (tagIndexKey, JScalar.num t)] := by
  show runP PSt.start (Component.reprChars ⟨R, P, some t, none⟩) = _
  have hsf : sortFields (Component.rep ⟨R, P, some t, none⟩) =
      [(positionKey, JScalar.num P), (runKey, JScalar.num R),
       (tagIndexKey, JScalar.num t)] := rfl
  unfold Component.reprChars dumpObjChars
  rw [hsf]
  simp only [fieldsChars, List.cons_append, List.append_assoc]
  rw [runP_cons _ _ _ _ stepP_start_open,
    runP_field_num _ _ _ _ _ (stepP_afterOpen_quote _) (by decide),
    runP_cons _ _ _ _ (stepP_numVal_comma _ _ _ _), commitNum_natAbs,
    runP_field_num _ _ _ _ _ (stepP_afterComma_quote _) (by decide),
    runP_cons _ _ _ _ (stepP_numVal_comma _ _ _ _), commitNum_natAbs,
    runP_field_num _ _ _ _ _ (stepP_afterComma_quote _) (by decide),
    runP_cons _ _ _ _ (stepP_numVal_close _ _ _ _), commitNum_natAbs]
  rfl

theorem parse_repr_ns (R P : Int) (s : SeqSubset) :
    jsonParse (Component.repr ⟨R, P, none, some s⟩) =
      some [(positionKey, JScalar.num P), (runKey, JScalar.num R),
        (subsetKey, JScalar.str s.value)] := by
  show runP PSt.start (Component.reprChars ⟨R, P, none, some s⟩) = _
  have hsf : sortFields (Component.rep ⟨R, P, none, some s⟩) =
      [(positionKey, JScalar.num P), (runKey, JScalar.num R),
       (subsetKey, JScalar.str s.value)] := rfl
  unfold Component.reprChars dumpObjChars
  rw [hsf]
  simp only [fieldsChars, List.cons_append, List.append_assoc]
  rw [runP_cons _ _ _ _ stepP_start_open,
    runP_field_num _ _ _ _ _ (stepP_afterOpen_quote _) (by decide),
    runP_cons _ _ _ _ (stepP_numVal_comma _ _ _ _), commitNum_natAbs,
    runP_field_num _ _ _ _ _ (stepP_afterComma_quote _) (by decide),
    runP_cons _ _ _ _ (stepP_numVal_comma _ _ _ _), commitNum_natAbs,
    runP_field_str _ _ _ _ _ (stepP_afterComma_quote _) (by decide)
      (subset_value_chars s),
    runP_cons _ _ _ _ (stepP_afterVal_close _)]
  rfl

theorem parse_repr_ts (R P t : Int) (s : SeqSubset) :
    jsonParse (Component.repr ⟨R, P, some t, some s⟩) =
      some [(positionKey, JScalar.num P), (runKey, JScalar.num R),
        (subsetKey, JScalar.str s.value), (tagIndexKey, JScalar.num t)] := by
  show runP PSt.start (Component.reprChars ⟨R, P, some t, some s⟩) = _
  have hsf : sortFields (Component.rep ⟨R, P, some t, some s⟩) =
      [(positionKey, JScalar.num P), (runKey, JScalar.num R),
       (subsetKey, JScalar.str s.value), (tagIndexKey, JScalar.num t)] := rfl
  unfold Component.reprChars dumpObjChars
  rw [hsf]
  simp only [fieldsChars, List.cons_append, List.append_assoc]
  rw [runP_cons _ _ _ _ stepP_start_open,
    runP_field_num _ _ _ _ _ (stepP_afterOpen_quote _) (by decide),
    runP_cons _ _ _ _ (stepP_numVal_comma _ _ _ _), commitNum_natAbs,
    runP_field_num _ _ _ _ _ (stepP_afterComma_quote _) (by decide),
    runP_cons _ _ _ _ (stepP_numVal_comma _ _ _ _), commitNum_natAbs,
    runP_field_str _ _ _ _ _ (stepP_afterComma_quote _) (by decide)
      (subset_value_chars s),
    runP_cons _ _ _ _ (stepP_afterVal_comma _),
    runP_field_num _ _ _ _ _ (stepP_afterComma_quote _) (by decide),
    runP_cons _ _ _ _ (stepP_numVal_close _ _ _ _), commitNum_natAbs]
  rfl

theorem repr_roundtrip (c : Component) :
    Component.from_avu ⟨componentAttr, c.repr⟩ = .ok c := by
  obtain ⟨R, P, tag, sub⟩ := c
  unfold Component.from_avu
  rw [if_pos rfl]
  rcases tag with _ | t <;> rcases sub with _ | s
  · rw [parse_repr_nn R P]
    rfl
  · rw [parse_repr_ns R P s]
    exact init_value_roundtrip R P none s
  · rw [parse_repr_tn R P t]
    rfl
  · rw [parse_repr_ts R P t s]
    exact init_value_roundtrip R P (some t) s

/- ===================== C6 ===================== -/

/-- C6: parsing a valid identity descriptor, serializing the resulting
component to the canonical descriptor form (single-line JSON, keys sorted
lexicographically, compact separators) and parsing again yields the same
component: parse (serialize (parse d)) = parse d. -/
theorem descriptor_roundtrip_rule (d : String) (c : Component)
    (_h : Component.from_avu ⟨componentAttr, d⟩ = .ok c) :
    Component.from_avu ⟨componentAttr, Component.repr c⟩ = .ok c :=
  repr_roundtrip c

/-- Witness for C6 at a concrete descriptor carrying all four fields. -/
theorem descriptor_roundtrip_rule_witness :
    Component.from_avu ⟨componentAttr, Component.repr exampleComponent⟩ =
      .ok exampleComponent :=
  descriptor_roundtrip_rule exampleDescriptor exampleComponent (by decide)
